import Mathlib

/-!
Shallow embedding of the copy-trading executor implemented in
`src/services/trader/trade_executor.py`.

Modelling conventions:

* Trade documents are loosely-shaped dicts in the source; they are embedded as
  a structure whose possibly-missing keys are `Option` fields, with
  `dict.get(key, default)` rendered as `Option.getD`.
* Monetary amounts and prices are rationals.
* The per-address Mongo user-activity collections are embedded as one list of
  records, each record carrying the address of the collection it belongs to;
  `collection.update_one(filter, {"$set": ...})` is a first-match update.
* Timestamps are milliseconds as naturals; the loop body is parametrised by
  `now`, and every pass of the polling loop advances time by the 0.3 s pacing
  sleep.
* The module-level `is_running` flag is read twice per pass of the loop
  (the `while is_running` guard and the `if not is_running: break` at the end
  of the body).  The value observed by the k-th read is given by a schedule
  `sig : Nat → Bool`, so that the flag being cleared concurrently at any point
  is covered.
* The external collaborators (`fetch_data_async` for positions,
  `get_my_balance_async`, `post_order`) are potentially failing awaited calls;
  they are embedded as `Except`-valued functions in a `Collab` record.  The
  executor code contains no `try/except`, which is modelled by threading an
  `err : Option String` that, once set, stops all further processing.
* Observable actions (store updates, order posts, log lines that the claims
  mention, reads of `is_running`) are recorded in an event trace.  The
  `postOrder` event additionally records the list of constituent record ids
  the order stems from, which is trace instrumentation only.
-/

namespace PolyBot

set_option maxRecDepth 2000

def emptyStr : String := ""

def buyStr : String := "BUY"

def sellStr : String := "SELL"

def buyActionStr : String := "buy"

def sellActionStr : String := "sell"

def tradeTypeStr : String := "TRADE"

def PROXY_WALLET : String := "proxy-wallet"

def TRADE_AGGREGATION_MIN_TOTAL_USD : ℚ := 1

structure Trade where
  id : Nat
  type : String
  userAddress : String
  conditionId : Option String
  asset : Option String
  side : Option String
  usdcSize : Option ℚ
  price : Option ℚ
  slug : Option String
  eventSlug : Option String
  bot : Bool
  botExcutedTime : Nat
deriving DecidableEq, Inhabited

structure Position where
  conditionId : Option String
  currentValue : Option ℚ
deriving DecidableEq, Inhabited

structure AggregatedTrade where
  userAddress : String
  conditionId : String
  asset : String
  side : String
  slug : Option String
  eventSlug : Option String
  trades : List Trade
  totalUsdcSize : ℚ
  averagePrice : ℚ
  firstTradeTime : Nat
  lastTradeTime : Nat
deriving DecidableEq, Inhabited

/-- The `trade_aggregation_buffer` dict: insertion-ordered key/batch pairs. -/
abbrev Buffer := List (String × AggregatedTrade)

inductive Event where
  | markExcuted (userAddress : String) (id : Nat)
  | markBot (userAddress : String) (id : Nat)
  | infoSkip (userAddress : String) (total : ℚ) (count : Nat)
  | postOrder (action : String) (ids : List Nat) (trade : Trade)
  | checkSignal (value : Bool)
deriving DecidableEq

/-- `read_temp_trades`: for each tracked address, the documents of that
address matching `{"type": "TRADE", "bot": False, "botExcutedTime": 0}`,
in store order. -/
def read_temp_trades (addresses : List String) (store : List Trade) : List Trade :=
  (addresses.map fun address =>
    store.filter fun t =>
      t.userAddress == address && t.type == tradeTypeStr &&
        !t.bot && t.botExcutedTime == 0).flatten

/-- `get_aggregation_key`. -/
def get_aggregation_key (trade : Trade) : String :=
  trade.userAddress ++ ":" ++ trade.conditionId.getD emptyStr ++ ":" ++
    trade.asset.getD emptyStr ++ ":" ++ trade.side.getD buyStr

def bufferGet (buf : Buffer) (key : String) : Option AggregatedTrade :=
  (buf.find? fun kv => kv.1 == key).map Prod.snd

/-- Python dict write: an existing key keeps its position, a new key is
appended at the end. -/
def bufferSet (buf : Buffer) (key : String) (value : AggregatedTrade) : Buffer :=
  if buf.any fun kv => kv.1 == key then
    buf.map fun kv => if kv.1 == key then (key, value) else kv
  else
    buf ++ [(key, value)]

/-- The merge branch of `add_to_aggregation_buffer`: append the trade, add its
size, and recompute the volume-weighted average price over the whole
constituent list, guarding the division by `totalUsdcSize > 0`. -/
def mergedBatch (existing : AggregatedTrade) (trade : Trade) (now : Nat) : AggregatedTrade :=
  let trades := existing.trades ++ [trade]
  let totalUsdcSize := existing.totalUsdcSize + trade.usdcSize.getD 0
  let total_value := (trades.map fun t => t.usdcSize.getD 0 * t.price.getD 0).sum
  { existing with
      trades := trades
      totalUsdcSize := totalUsdcSize
      averagePrice := if 0 < totalUsdcSize then total_value / totalUsdcSize else 0
      lastTradeTime := now }

/-- The create branch of `add_to_aggregation_buffer`. -/
def createdBatch (trade : Trade) (now : Nat) : AggregatedTrade :=
  { userAddress := trade.userAddress
    conditionId := trade.conditionId.getD emptyStr
    asset := trade.asset.getD emptyStr
    side := trade.side.getD buyStr
    slug := trade.slug
    eventSlug := trade.eventSlug
    trades := [trade]
    totalUsdcSize := trade.usdcSize.getD 0
    averagePrice := trade.price.getD 0
    firstTradeTime := now
    lastTradeTime := now }

/-- `add_to_aggregation_buffer`. -/
def add_to_aggregation_buffer (buf : Buffer) (trade : Trade) (now : Nat) : Buffer :=
  let key := get_aggregation_key trade
  match bufferGet buf key with
  | some existing => bufferSet buf key (mergedBatch existing trade now)
  | none => bufferSet buf key (createdBatch trade now)

/-- pymongo `update_one`: update the first matching document only. -/
def updateFirst (p : Trade → Bool) (f : Trade → Trade) : List Trade → List Trade
  | [] => []
  | r :: rest => if p r then f r :: rest else r :: updateFirst p f rest

/-- `collection.update_one({"_id": ...}, {"$set": {"bot": True}})` on the
collection of `address`. -/
def update_one_bot (store : List Trade) (address : String) (id : Nat) : List Trade :=
  updateFirst (fun r => r.userAddress == address && r.id == id)
    (fun r => { r with bot := true }) store

/-- `collection.update_one({"_id": ...}, {"$set": {"botExcutedTime": 1}})` on
the collection of `address`. -/
def update_one_excuted (store : List Trade) (address : String) (id : Nat) : List Trade :=
  updateFirst (fun r => r.userAddress == address && r.id == id)
    (fun r => { r with botExcutedTime := 1 }) store

/-- A record of the given collection/id is present in the store. -/
def has_record (store : List Trade) (address : String) (id : Nat) : Bool :=
  store.any fun r => r.userAddress == address && r.id == id

/-- Some record of the given collection/id has been flagged `bot = True`. -/
def marked_bot (store : List Trade) (address : String) (id : Nat) : Bool :=
  store.any fun r => r.userAddress == address && r.id == id && r.bot

/-- Flag every record listed in `ts` with `bot = True`, in order. -/
def mark_bot_all (store : List Trade) (ts : List Trade) : List Trade :=
  ts.foldl (fun s t => update_one_bot s t.userAddress t.id) store

/-- Flag every record listed in `ts` with `botExcutedTime = 1`, in order. -/
def mark_excuted_all (store : List Trade) (ts : List Trade) : List Trade :=
  ts.foldl (fun s t => update_one_excuted s t.userAddress t.id) store

/-- Some record of the given collection/id has been flagged
`botExcutedTime = 1`. -/
def marked_excuted (store : List Trade) (address : String) (id : Nat) : Bool :=
  store.any fun r => r.userAddress == address && r.id == id && r.botExcutedTime == 1

/-- `time_elapsed >= window_ms` for a batch; the subtraction is over ℤ as in
Python. -/
def expired (window_s now : Nat) (agg : AggregatedTrade) : Bool :=
  decide ((window_s : ℤ) * 1000 ≤ (now : ℤ) - (agg.firstTradeTime : ℤ))

structure ReadyResult where
  ready : List AggregatedTrade
  buf : Buffer
  store : List Trade
  events : List Event
deriving DecidableEq

/-- The store updates of the below-minimum discard branch of
`get_ready_aggregated_trades`: flag every constituent `bot = True`. -/
def discard_store (store : List Trade) (agg : AggregatedTrade) : List Trade :=
  mark_bot_all store agg.trades

/-- The observable records of the discard branch: the informational skip log
followed by the per-constituent store flags. -/
def discard_events (agg : AggregatedTrade) : List Event :=
  Event.infoSkip agg.userAddress agg.totalUsdcSize agg.trades.length ::
    agg.trades.map fun t => Event.markBot t.userAddress t.id

/-- `get_ready_aggregated_trades`: walk the buffer in order; expired batches
are either collected as ready (total at or above the floor) or discarded
(constituents flagged, skip logged); expired keys are removed, fresh keys are
kept.  Collecting `keys_to_remove` and deleting after the walk, as the Python
does, has the same net effect as not re-adding the expired entries. -/
def get_ready_aggregated_trades (window_s now : Nat) : Buffer → List Trade → ReadyResult
  | [], store => ⟨[], [], store, []⟩
  | kv :: rest, store =>
    if expired window_s now kv.2 then
      if TRADE_AGGREGATION_MIN_TOTAL_USD ≤ kv.2.totalUsdcSize then
        let r := get_ready_aggregated_trades window_s now rest store
        ⟨kv.2 :: r.ready, r.buf, r.store, r.events⟩
      else
        let r := get_ready_aggregated_trades window_s now rest (discard_store store kv.2)
        ⟨r.ready, r.buf, r.store, discard_events kv.2 ++ r.events⟩
    else
      let r := get_ready_aggregated_trades window_s now rest store
      ⟨r.ready, kv :: r.buf, r.store, r.events⟩

/-- The awaited collaborators of the executor.  Each may fail, modelling a
raised exception in the awaited call. -/
structure Collab where
  fetchPositions : String → Except String (List Position)
  getMyBalance : String → Except String ℚ
  postOrder : String → Option Position → Option Position → Trade → ℚ → ℚ → String →
    Except String Unit

structure ExecResult where
  store : List Trade
  events : List Event
  err : Option String
deriving DecidableEq

/-- One iteration of the `for trade in trades` body of `do_trading`: flag the
record `botExcutedTime = 1` first, then fetch positions and balances, then
post the order.  There is no `try/except`: a failing awaited call ends the
whole call chain with that error. -/
def do_one_trade (collab : Collab) (store : List Trade) (trade : Trade) : ExecResult :=
  let store1 := update_one_excuted store trade.userAddress trade.id
  let ev1 := [Event.markExcuted trade.userAddress trade.id]
  match collab.fetchPositions PROXY_WALLET with
  | .error e => ⟨store1, ev1, some e⟩
  | .ok my_positions =>
    match collab.fetchPositions trade.userAddress with
    | .error e => ⟨store1, ev1, some e⟩
    | .ok user_positions =>
      match collab.getMyBalance PROXY_WALLET with
      | .error e => ⟨store1, ev1, some e⟩
      | .ok my_balance =>
        let my_position := my_positions.find? fun p => p.conditionId == trade.conditionId
        let user_position := user_positions.find? fun p => p.conditionId == trade.conditionId
        let user_balance := (user_positions.map fun p => p.currentValue.getD 0).sum
        let action := if trade.side == some buyStr then buyActionStr else sellActionStr
        let ev2 := ev1 ++ [Event.postOrder action [trade.id] trade]
        match collab.postOrder action my_position user_position trade my_balance
            user_balance trade.userAddress with
        | .error e => ⟨store1, ev2, some e⟩
        | .ok _ => ⟨store1, ev2, none⟩

/-- `do_trading`: process the list in order, stopping at the first error
(which the source lets propagate). -/
def do_trading (collab : Collab) : List Trade → List Trade → ExecResult
  | store, [] => ⟨store, [], none⟩
  | store, trade :: rest =>
    let one := do_one_trade collab store trade
    match one.err with
    | some e => ⟨one.store, one.events, some e⟩
    | none =>
      let r := do_trading collab one.store rest
      ⟨r.store, one.events ++ r.events, r.err⟩

/-- The constituent-flagging prefix of one `do_aggregated_trading` iteration. -/
def mark_agg_store (store : List Trade) (agg : AggregatedTrade) : List Trade :=
  mark_excuted_all store agg.trades

/-- The synthetic trade `{**agg["trades"][0], "usdcSize": total, "price":
average, "side": side}` handed to `post_order` for a batch. -/
def synthetic_trade (agg : AggregatedTrade) : Trade :=
  { agg.trades.headI with
      usdcSize := some agg.totalUsdcSize
      price := some agg.averagePrice
      side := some agg.side }

/-- One iteration of the `for agg in aggregated_trades` body of
`do_aggregated_trading`. -/
def do_one_agg (collab : Collab) (store : List Trade) (agg : AggregatedTrade) : ExecResult :=
  let store1 := mark_agg_store store agg
  let ev1 := agg.trades.map fun t => Event.markExcuted t.userAddress t.id
  match collab.fetchPositions PROXY_WALLET with
  | .error e => ⟨store1, ev1, some e⟩
  | .ok my_positions =>
    match collab.fetchPositions agg.userAddress with
    | .error e => ⟨store1, ev1, some e⟩
    | .ok user_positions =>
      match collab.getMyBalance PROXY_WALLET with
      | .error e => ⟨store1, ev1, some e⟩
      | .ok my_balance =>
        let my_position := my_positions.find? fun p => p.conditionId == some agg.conditionId
        let user_position := user_positions.find? fun p => p.conditionId == some agg.conditionId
        let user_balance := (user_positions.map fun p => p.currentValue.getD 0).sum
        let st := synthetic_trade agg
        let action := if agg.side == buyStr then buyActionStr else sellActionStr
        let ev2 := ev1 ++ [Event.postOrder action (agg.trades.map fun t => t.id) st]
        match collab.postOrder action my_position user_position st my_balance
            user_balance agg.userAddress with
        | .error e => ⟨store1, ev2, some e⟩
        | .ok _ => ⟨store1, ev2, none⟩

/-- `do_aggregated_trading`. -/
def do_aggregated_trading (collab : Collab) : List Trade → List AggregatedTrade → ExecResult
  | store, [] => ⟨store, [], none⟩
  | store, agg :: rest =>
    let one := do_one_agg collab store agg
    match one.err with
    | some e => ⟨one.store, one.events, some e⟩
    | none =>
      let r := do_aggregated_trading collab one.store rest
      ⟨r.store, one.events ++ r.events, r.err⟩

structure Config where
  addresses : List String
  aggregationEnabled : Bool
  windowSeconds : Nat

structure TickResult where
  store : List Trade
  buffer : Buffer
  events : List Event
  err : Option String
deriving DecidableEq

/-- The `for trade in trades` body of the aggregation-enabled branch of the
loop: a trade with `side == "BUY"` and notional strictly below the floor goes
to the buffer, anything else is dispatched immediately via
`do_trading(clob_client, [trade])`. -/
def process_fetched_trades (collab : Collab) (now : Nat) :
    List Trade → Buffer → List Trade → TickResult
  | store, buf, [] => ⟨store, buf, [], none⟩
  | store, buf, trade :: rest =>
    if trade.side == some buyStr &&
        decide (trade.usdcSize.getD 0 < TRADE_AGGREGATION_MIN_TOTAL_USD) then
      process_fetched_trades collab now store (add_to_aggregation_buffer buf trade now) rest
    else
      let one := do_trading collab store [trade]
      match one.err with
      | some e => ⟨one.store, buf, one.events, some e⟩
      | none =>
        let r := process_fetched_trades collab now one.store buf rest
        ⟨r.store, r.buffer, one.events ++ r.events, r.err⟩

/-- One pass of the body of `while is_running` (the `is_running` reads are in
`executor_loop`): fetch unprocessed trades, then either the aggregation
branch (per-trade routing, release-policy evaluation, aggregated dispatch) or
plain `do_trading` over everything fetched.  The waiting/log-only branch is
omitted as it touches no modelled state. -/
def executor_tick (cfg : Config) (collab : Collab) (now : Nat) (store : List Trade)
    (buf : Buffer) : TickResult :=
  let trades := read_temp_trades cfg.addresses store
  if cfg.aggregationEnabled then
    let r1 := process_fetched_trades collab now store buf trades
    match r1.err with
    | some e => ⟨r1.store, r1.buffer, r1.events, some e⟩
    | none =>
      let r2 := get_ready_aggregated_trades cfg.windowSeconds now r1.buffer r1.store
      let r3 := do_aggregated_trading collab r2.store r2.ready
      ⟨r3.store, r2.buf, r1.events ++ r2.events ++ r3.events, r3.err⟩
  else
    let r := do_trading collab store trades
    ⟨r.store, buf, r.events, r.err⟩

structure RunResult where
  store : List Trade
  buffer : Buffer
  events : List Event
  err : Option String
deriving DecidableEq

/-- The `while is_running` loop.  `sig k` is the value of `is_running` seen by
the k-th read; reads happen at the loop guard and at the
`if not is_running: break` after the body, and the pacing sleep advances
`now` by 300 ms.  `fuel` bounds the number of passes so the model is total;
running out of fuel is not an exit of the source loop. -/
def executor_loop (cfg : Config) (collab : Collab) (sig : Nat → Bool) :
    Nat → Nat → Nat → List Trade → Buffer → RunResult
  | 0, _, _, store, buf => ⟨store, buf, [], none⟩
  | fuel + 1, readIdx, now, store, buf =>
    if sig readIdx then
      let r := executor_tick cfg collab now store buf
      match r.err with
      | some e => ⟨r.store, r.buffer, Event.checkSignal true :: r.events, some e⟩
      | none =>
        if sig (readIdx + 1) then
          let rest := executor_loop cfg collab sig fuel (readIdx + 2) (now + 300) r.store r.buffer
          ⟨rest.store, rest.buffer,
            Event.checkSignal true :: r.events ++ Event.checkSignal true :: rest.events,
            rest.err⟩
        else
          ⟨r.store, r.buffer, Event.checkSignal true :: r.events ++ [Event.checkSignal false],
            none⟩
    else
      ⟨store, buf, [Event.checkSignal false], none⟩

/-- A collaborator family whose awaited calls always succeed. -/
def mkCollab (fp : String → List Position) (bal : String → ℚ) : Collab :=
  { fetchPositions := fun a => .ok (fp a)
    getMyBalance := fun a => .ok (bal a)
    postOrder := fun _ _ _ _ _ _ _ => .ok () }

def okCollab : Collab := mkCollab (fun _ => []) (fun _ => 0)

def boomStr : String := "order placement failed"

/-- A collaborator whose order placement always raises. -/
def failPostCollab : Collab :=
  { fetchPositions := fun _ => .ok []
    getMyBalance := fun _ => .ok 0
    postOrder := fun _ _ _ _ _ _ _ => .error boomStr }

def is_post_event : Event → Bool
  | Event.postOrder _ _ _ => true
  | _ => false

def is_check_event : Event → Bool
  | Event.checkSignal _ => true
  | _ => false

/-- `gaps_checked events seen` is true when between any two post-order events
of the trace there is at least one read of the stop signal; `seen` records
whether a read has occurred since the previous post (initially true). -/
def gaps_checked : List Event → Bool → Bool
  | [], _ => true
  | e :: rest, seen =>
    if is_post_event e then seen && gaps_checked rest false
    else if is_check_event e then gaps_checked rest true
    else gaps_checked rest seen

/-- Every `checkSignal false` event (a read observing the stop request) is the
final event of the trace. -/
def ends_at_stop : List Event → Bool
  | [] => true
  | e :: rest => if e = Event.checkSignal false then rest.isEmpty else ends_at_stop rest

/-- Fold a timed trade sequence into the aggregation buffer, starting empty. -/
def buildBuffer (l : List (Trade × Nat)) : Buffer :=
  l.foldl (fun buf p => add_to_aggregation_buffer buf p.1 p.2) []

/-- Every post-order event of the trace is preceded, for each constituent
record id it carries, by a `botExcutedTime = 1` store update of that id. -/
def marks_precede (events : List Event) : Prop :=
  ∀ j action ids trade, events.get? j = some (Event.postOrder action ids trade) →
    ∀ id ∈ ids, ∃ i u, i < j ∧ events.get? i = some (Event.markExcuted u id)

def condStr : String := "cond-1"

def assetStr : String := "asset-1"

def addrStr : String := "0xabc"

/-- A well-formed unprocessed trade document, for concrete runs. -/
def sampleTrade (id : Nat) (address : String) (side : String) (size price : ℚ) : Trade :=
  { id := id
    type := tradeTypeStr
    userAddress := address
    conditionId := some condStr
    asset := some assetStr
    side := some side
    usdcSize := some size
    price := some price
    slug := none
    eventSlug := none
    bot := false
    botExcutedTime := 0 }

/-- Aggregation enabled, one tracked address, 60 s window. -/
def cfgAgg : Config := ⟨[addrStr], true, 60⟩

/-- Aggregation disabled, one tracked address. -/
def cfgNoAgg : Config := ⟨[addrStr], false, 60⟩

/-- `is_running` stays true at every read. -/
def sigTrue : Nat → Bool := fun _ => true

/-- `is_running` is true at the first read (the loop guard) and false at every
later read: the stop request lands right after the tick begins. -/
def sigStopAfterFirst : Nat → Bool := fun i => i == 0

/-- A sub-floor BUY trade (0.2 USDC at price 0.5). -/
def tBuy : Trade := sampleTrade 1 addrStr buyStr (1/5) (1/2)

/-- A sub-floor SELL trade (0.5 USDC at price 0.5). -/
def tSell : Trade := sampleTrade 2 addrStr sellStr (1/2) (1/2)

def tAgg1 : Trade := sampleTrade 1 addrStr buyStr (1/5) (1/2)

def tAgg2 : Trade := sampleTrade 2 addrStr buyStr (3/10) (2/5)

def tAgg3 : Trade := sampleTrade 3 addrStr buyStr (1/10) (3/5)

/-- The buffer after the three sub-floor same-key trades of the discard
scenario arrive at 0 s, 5 s and 10 s. -/
def bufThree : Buffer := buildBuffer [(tAgg1, 0), (tAgg2, 5000), (tAgg3, 10000)]

/-- Zero-notional same-key trades at price 0.5. -/
def tZero1 : Trade := sampleTrade 1 addrStr buyStr 0 (1/2)

def tZero2 : Trade := sampleTrade 2 addrStr buyStr 0 (1/2)

/-- Above-floor trades for the failing-dispatch run. -/
def tFail1 : Trade := sampleTrade 1 addrStr buyStr 5 (1/2)

def tFail2 : Trade := sampleTrade 2 addrStr buyStr 7 (1/2)

/-- Above-floor trades dispatched immediately inside one tick. -/
def tImm1 : Trade := sampleTrade 1 addrStr buyStr 5 (1/2)

def tImm2 : Trade := sampleTrade 2 addrStr buyStr 7 (1/2)

/-- The 5-USDC trade of the aggregation-disabled scenario. -/
def tFive : Trade := sampleTrade 1 addrStr buyStr 5 (1/2)

/-- A trade document missing side, size and price. -/
def tLoose : Trade :=
  { id := 9
    type := tradeTypeStr
    userAddress := addrStr
    conditionId := none
    asset := none
    side := none
    usdcSize := none
    price := none
    slug := none
    eventSlug := none
    bot := false
    botExcutedTime := 0 }

/-- Same-key trades for the weighted-average witness: 1 USDC at 0.5 and
3 USDC at 0.25. -/
def tW1 : Trade := sampleTrade 21 addrStr buyStr 1 (1/2)

def tW2 : Trade := sampleTrade 22 addrStr buyStr 3 (1/4)

/-- The batch built from the two weighted-average witness trades. -/
def aggW : AggregatedTrade := (buildBuffer [(tW1, 0), (tW2, 0)]).headI.2

/-- The batch of the three-trade discard scenario, and its key. -/
def aggThree : AggregatedTrade := bufThree.headI.2

def keyThree : String := get_aggregation_key tAgg1

/-- An expired batch above the floor (2 USDC, first seen at 0 ms). -/
def batchReady : AggregatedTrade := createdBatch (sampleTrade 11 addrStr buyStr 2 (1/2)) 0

/-- An expired batch below the floor (0.5 USDC, first seen at 0 ms). -/
def batchLow : AggregatedTrade := createdBatch (sampleTrade 12 addrStr buyStr (1/2) (1/2)) 0

/-- A batch still inside the window (first seen at 90 s). -/
def batchFresh : AggregatedTrade := createdBatch (sampleTrade 13 addrStr buyStr 3 (1/2)) 90000

def keyA : String := "key-a"

def keyB : String := "key-b"

def keyC : String := "key-c"

def bufMixed : Buffer := [(keyA, batchReady), (keyB, batchLow), (keyC, batchFresh)]

/-- C1: a single unprocessed sub-floor BUY trade (0.2 USDC, id 1) is fetched
again on every polling pass, because `add_to_aggregation_buffer` leaves the
store record untouched (`bot = False`, `botExcutedTime = 0`) and
`read_temp_trades` selects exactly such records.  After two passes of the
loop the one distinct record has been merged into its batch twice: the batch
holds 2 constituent entries and `totalUsdcSize = 0.4`, double the record's
0.2 USDC notional, and the store is unchanged.  This falsifies, on the code,
the claim that a trade record sitting unprocessed in the buffer across
several polling ticks is counted once. -/
theorem C1_buffer_double_counts_unprocessed_record :
    ((executor_loop cfgAgg okCollab sigTrue 2 0 0 [tBuy] []).buffer.map fun kv =>
        (kv.2.totalUsdcSize, kv.2.trades.length)) = [(2/5, 2)] ∧
    (executor_loop cfgAgg okCollab sigTrue 2 0 0 [tBuy] []).store = [tBuy] ∧
    tBuy.usdcSize = some (1/5) ∧ tBuy.bot = false ∧ tBuy.botExcutedTime = 0 := by
  refine ⟨by with_unfolding_all decide, by with_unfolding_all decide, by with_unfolding_all decide, by with_unfolding_all decide, by with_unfolding_all decide⟩

/-- C2 counterexample: a SELL trade of 0.5 USDC is strictly below the 1.0
floor and its side is not BUY-equivalent, so the claim says it is added to
the aggregation buffer and not yet marked processed.  The code instead
dispatches it immediately: after the tick the buffer is empty, a sell order
for the trade was posted, and its record is marked `botExcutedTime = 1`. -/
theorem C2_counterexample_sub_floor_sell_dispatched :
    tSell.side = some sellStr ∧
    tSell.usdcSize.getD 0 < TRADE_AGGREGATION_MIN_TOTAL_USD ∧
    (executor_tick cfgAgg okCollab 0 [tSell] []).buffer = [] ∧
    (executor_tick cfgAgg okCollab 0 [tSell] []).events.filter is_post_event =
      [Event.postOrder sellActionStr [2] tSell] ∧
    marked_excuted (executor_tick cfgAgg okCollab 0 [tSell] []).store addrStr 2 = true := by
  refine ⟨by with_unfolding_all decide, by with_unfolding_all decide, by with_unfolding_all decide, by with_unfolding_all decide, by with_unfolding_all decide⟩

/-- C5 counterexample: two same-key constituents, both of non-negative
(zero) `usdcSize` and price 0.5.  The merge recomputation takes the
`totalUsdcSize > 0 … else 0` guard, so the batch's `averagePrice` is 0,
strictly below the minimum constituent price 0.5 — outside
`[min(prices), max(prices)]`. -/
theorem C5_counterexample_zero_size_batch :
    ((buildBuffer [(tZero1, 0), (tZero2, 0)]).map fun kv =>
        (kv.2.averagePrice,
         kv.2.trades.map fun t => (t.usdcSize.getD 0, t.price.getD 0))) =
      [(0, [(0, 1/2), (0, 1/2)])] := by
  with_unfolding_all decide

/-- C7 counterexample: aggregation disabled, two unprocessed trades, and an
order-placement collaborator that raises.  The claim says the error is
caught inside the loop and the loop proceeds to the next trade.  Instead the
error propagates out of `do_trading` and ends the run (`err` is the raised
error), only the first trade's order was ever attempted, and the second
record is left untouched (`botExcutedTime = 0`), never dispatched. -/
theorem C7_counterexample_error_aborts_loop :
    (executor_loop cfgNoAgg failPostCollab sigTrue 1 0 0 [tFail1, tFail2] []).err =
      some boomStr ∧
    ((executor_loop cfgNoAgg failPostCollab sigTrue 1 0 0 [tFail1, tFail2] []).events.filter
        is_post_event) = [Event.postOrder buyActionStr [1] tFail1] ∧
    (executor_loop cfgNoAgg failPostCollab sigTrue 1 0 0 [tFail1, tFail2] []).store.map
        (fun r => (r.id, r.botExcutedTime)) = [(1, 1), (2, 0)] := by
  refine ⟨by with_unfolding_all decide, by with_unfolding_all decide, by with_unfolding_all decide⟩

/-- C9 counterexample: aggregation enabled, two above-floor trades fetched in
one tick, and the stop signal set immediately after the loop-guard read (it
reads true once, then false at every later read).  Both orders are still
posted, and between the two post-order events there is no read of the stop
signal at all (`gaps_checked` fails), refuting that the signal is checked
between dispatch steps within a tick; the run's trace carries exactly two
signal reads. -/
theorem C9_counterexample_no_check_between_dispatches :
    sigStopAfterFirst 0 = true ∧ sigStopAfterFirst 1 = false ∧
    ((executor_loop cfgAgg okCollab sigStopAfterFirst 1 0 0 [tImm1, tImm2] []).events.filter
        is_post_event).length = 2 ∧
    gaps_checked
      (executor_loop cfgAgg okCollab sigStopAfterFirst 1 0 0 [tImm1, tImm2] []).events true =
      false ∧
    ((executor_loop cfgAgg okCollab sigStopAfterFirst 1 0 0 [tImm1, tImm2] []).events.filter
        is_check_event).length = 2 := by
  refine ⟨by with_unfolding_all decide, by with_unfolding_all decide, by with_unfolding_all decide, by with_unfolding_all decide, by with_unfolding_all decide⟩

theorem get_ready_buf_eq (w n : Nat) :
    ∀ (buf : Buffer) (store : List Trade),
      (get_ready_aggregated_trades w n buf store).buf =
        buf.filter fun kv => !expired w n kv.2 := by
  intro buf
  induction buf with
  | nil => intro store; rfl
  | cons kv rest ih =>
    intro store
    cases h : expired w n kv.2 with
    | true =>
      by_cases h2 : TRADE_AGGREGATION_MIN_TOTAL_USD ≤ kv.2.totalUsdcSize
      · simp [get_ready_aggregated_trades, h, h2, ih, List.filter_cons]
      · simp [get_ready_aggregated_trades, h, h2, ih, List.filter_cons]
    | false => simp [get_ready_aggregated_trades, h, ih, List.filter_cons]

theorem get_ready_ready_eq (w n : Nat) :
    ∀ (buf : Buffer) (store : List Trade),
      (get_ready_aggregated_trades w n buf store).ready =
        (buf.filter fun kv =>
          expired w n kv.2 &&
            decide (TRADE_AGGREGATION_MIN_TOTAL_USD ≤ kv.2.totalUsdcSize)).map Prod.snd := by
  intro buf
  induction buf with
  | nil => intro store; rfl
  | cons kv rest ih =>
    intro store
    cases h : expired w n kv.2 with
    | true =>
      by_cases h2 : TRADE_AGGREGATION_MIN_TOTAL_USD ≤ kv.2.totalUsdcSize
      · simp [get_ready_aggregated_trades, h, h2, ih, List.filter_cons]
      · simp [get_ready_aggregated_trades, h, h2, ih, List.filter_cons]
    | false => simp [get_ready_aggregated_trades, h, ih, List.filter_cons]

theorem discard_events_no_post (agg : AggregatedTrade) :
    ∀ e ∈ discard_events agg, is_post_event e = false := by
  intro e he
  rcases List.mem_cons.mp he with rfl | hmap
  · rfl
  · rcases List.mem_map.mp hmap with ⟨t, _, rfl⟩
    rfl

theorem get_ready_no_post (w n : Nat) :
    ∀ (buf : Buffer) (store : List Trade),
      ∀ e ∈ (get_ready_aggregated_trades w n buf store).events, is_post_event e = false := by
  intro buf
  induction buf with
  | nil => intro store e he; simp [get_ready_aggregated_trades] at he
  | cons kv rest ih =>
    intro store e he
    cases h : expired w n kv.2 with
    | true =>
      by_cases h2 : TRADE_AGGREGATION_MIN_TOTAL_USD ≤ kv.2.totalUsdcSize
      · simp only [get_ready_aggregated_trades, h, if_true, h2, if_pos h2] at he
        exact ih store e he
      · simp only [get_ready_aggregated_trades, h, if_true, if_neg h2, List.mem_append] at he
        rcases he with he | he
        · exact discard_events_no_post kv.2 e he
        · exact ih _ e he
    | false =>
      simp only [get_ready_aggregated_trades, h, Bool.false_eq_true, if_false] at he
      exact ih store e he

theorem get_ready_skip_mem (w n : Nat) :
    ∀ (buf : Buffer) (store : List Trade) (k : String) (agg : AggregatedTrade),
      (k, agg) ∈ buf → expired w n agg = true →
      ¬ TRADE_AGGREGATION_MIN_TOTAL_USD ≤ agg.totalUsdcSize →
      Event.infoSkip agg.userAddress agg.totalUsdcSize agg.trades.length ∈
        (get_ready_aggregated_trades w n buf store).events := by
  intro buf
  induction buf with
  | nil => intro store k agg hmem; simp at hmem
  | cons kv rest ih =>
    intro store k agg hmem hexp hlow
    rcases List.mem_cons.mp hmem with heq | hmem'
    · cases heq
      simp only [get_ready_aggregated_trades, hexp, if_true, if_neg hlow]
      exact List.mem_append_left _ (List.mem_cons_self _ _)
    · cases h : expired w n kv.2 with
      | true =>
        by_cases h2 : TRADE_AGGREGATION_MIN_TOTAL_USD ≤ kv.2.totalUsdcSize
        · simp only [get_ready_aggregated_trades, h, if_true, if_pos h2]
          exact ih store k agg hmem' hexp hlow
        · simp only [get_ready_aggregated_trades, h, if_true, if_neg h2]
          exact List.mem_append_right _ (ih _ k agg hmem' hexp hlow)
      | false =>
        simp only [get_ready_aggregated_trades, h, Bool.false_eq_true, if_false]
        exact ih store k agg hmem' hexp hlow

theorem any_updateFirst_of_any (q : Trade → Bool) (f : Trade → Trade) (p : Trade → Bool)
    (hq : ∀ r, q r = true → p (f r) = true) :
    ∀ store : List Trade, store.any q = true → (updateFirst q f store).any p = true := by
  intro store
  induction store with
  | nil => intro h; simp at h
  | cons r rest ih =>
    intro h
    cases hqr : q r with
    | true =>
      simp only [updateFirst, hqr, if_true, List.any_cons]
      exact Bool.or_eq_true_iff.mpr (Or.inl (hq r hqr))
    | false =>
      simp only [List.any_cons, hqr, Bool.false_or] at h
      simp only [updateFirst, hqr, Bool.false_eq_true, if_false, List.any_cons]
      exact Bool.or_eq_true_iff.mpr (Or.inr (ih h))

theorem any_updateFirst_mono (q : Trade → Bool) (f : Trade → Trade) (p : Trade → Bool)
    (hp : ∀ r, p r = true → p (f r) = true) :
    ∀ store : List Trade, store.any p = true → (updateFirst q f store).any p = true := by
  intro store
  induction store with
  | nil => intro h; simp at h
  | cons r rest ih =>
    intro h
    rcases Bool.or_eq_true_iff.mp ((List.any_cons ..).symm.trans h) with hr | hrest
    · cases hqr : q r with
      | true =>
        simp only [updateFirst, hqr, if_true, List.any_cons]
        exact Bool.or_eq_true_iff.mpr (Or.inl (hp r hr))
      | false =>
        simp only [updateFirst, hqr, Bool.false_eq_true, if_false, List.any_cons]
        exact Bool.or_eq_true_iff.mpr (Or.inl hr)
    · cases hqr : q r with
      | true =>
        simp only [updateFirst, hqr, if_true, List.any_cons]
        exact Bool.or_eq_true_iff.mpr (Or.inr hrest)
      | false =>
        simp only [updateFirst, hqr, Bool.false_eq_true, if_false, List.any_cons]
        exact Bool.or_eq_true_iff.mpr (Or.inr (ih hrest))

theorem marked_bot_update_one_bot_mono (store : List Trade) (a' : String) (i' : Nat)
    (a : String) (i : Nat) (h : marked_bot store a i = true) :
    marked_bot (update_one_bot store a' i') a i = true := by
  refine any_updateFirst_mono _ _ _ (fun r hr => ?_) store h
  simp only [Bool.and_eq_true] at hr ⊢
  exact ⟨hr.1, trivial⟩

theorem has_record_update_one_bot_mono (store : List Trade) (a' : String) (i' : Nat)
    (a : String) (i : Nat) (h : has_record store a i = true) :
    has_record (update_one_bot store a' i') a i = true := by
  refine any_updateFirst_mono _ _ _ (fun r hr => ?_) store h
  simpa using hr

theorem has_record_update_one_excuted_mono (store : List Trade) (a' : String) (i' : Nat)
    (a : String) (i : Nat) (h : has_record store a i = true) :
    has_record (update_one_excuted store a' i') a i = true := by
  refine any_updateFirst_mono _ _ _ (fun r hr => ?_) store h
  simpa using hr

theorem marked_excuted_update_one_excuted_mono (store : List Trade) (a' : String) (i' : Nat)
    (a : String) (i : Nat) (h : marked_excuted store a i = true) :
    marked_excuted (update_one_excuted store a' i') a i = true := by
  refine any_updateFirst_mono _ _ _ (fun r hr => ?_) store h
  simp only [Bool.and_eq_true] at hr ⊢
  exact ⟨hr.1, by simp⟩

theorem marked_bot_update_one_bot_self (store : List Trade) (a : String) (i : Nat)
    (h : has_record store a i = true) :
    marked_bot (update_one_bot store a i) a i = true := by
  refine any_updateFirst_of_any _ _ _ (fun r hr => ?_) store h
  simp only [Bool.and_eq_true] at hr ⊢
  exact ⟨hr, trivial⟩

theorem marked_excuted_update_one_excuted_self (store : List Trade) (a : String) (i : Nat)
    (h : has_record store a i = true) :
    marked_excuted (update_one_excuted store a i) a i = true := by
  refine any_updateFirst_of_any _ _ _ (fun r hr => ?_) store h
  simp only [Bool.and_eq_true] at hr ⊢
  exact ⟨hr, by simp⟩

theorem foldl_update_any (upd : List Trade → Trade → List Trade) (p : List Trade → Bool)
    (hupd : ∀ s t, p s = true → p (upd s t) = true) :
    ∀ (ts : List Trade) (s : List Trade), p s = true → p (ts.foldl upd s) = true := by
  intro ts
  induction ts with
  | nil => intro s h; exact h
  | cons t rest ih => intro s h; exact ih (upd s t) (hupd s t h)

theorem marked_bot_mark_bot_all_mono (ts : List Trade) (store : List Trade)
    (a : String) (i : Nat) (h : marked_bot store a i = true) :
    marked_bot (mark_bot_all store ts) a i = true :=
  foldl_update_any _ (fun s => marked_bot s a i)
    (fun s t hs => marked_bot_update_one_bot_mono s t.userAddress t.id a i hs) ts store h

theorem has_record_mark_bot_all_mono (ts : List Trade) (store : List Trade)
    (a : String) (i : Nat) (h : has_record store a i = true) :
    has_record (mark_bot_all store ts) a i = true :=
  foldl_update_any _ (fun s => has_record s a i)
    (fun s t hs => has_record_update_one_bot_mono s t.userAddress t.id a i hs) ts store h

theorem marked_excuted_mark_excuted_all_mono (ts : List Trade) (store : List Trade)
    (a : String) (i : Nat) (h : marked_excuted store a i = true) :
    marked_excuted (mark_excuted_all store ts) a i = true :=
  foldl_update_any _ (fun s => marked_excuted s a i)
    (fun s t hs => marked_excuted_update_one_excuted_mono s t.userAddress t.id a i hs) ts store h

theorem has_record_mark_excuted_all_mono (ts : List Trade) (store : List Trade)
    (a : String) (i : Nat) (h : has_record store a i = true) :
    has_record (mark_excuted_all store ts) a i = true :=
  foldl_update_any _ (fun s => has_record s a i)
    (fun s t hs => has_record_update_one_excuted_mono s t.userAddress t.id a i hs) ts store h

theorem mark_bot_all_marks :
    ∀ (ts : List Trade) (store : List Trade) (t : Trade), t ∈ ts →
      has_record store t.userAddress t.id = true →
      marked_bot (mark_bot_all store ts) t.userAddress t.id = true := by
  intro ts
  induction ts with
  | nil => intro store t hmem; simp at hmem
  | cons x rest ih =>
    intro store t hmem hrec
    have hstep : mark_bot_all store (x :: rest) =
        mark_bot_all (update_one_bot store x.userAddress x.id) rest := rfl
    rw [hstep]
    rcases List.mem_cons.mp hmem with rfl | hmem'
    · exact marked_bot_mark_bot_all_mono rest _ _ _
        (marked_bot_update_one_bot_self store t.userAddress t.id hrec)
    · exact ih _ t hmem'
        (has_record_update_one_bot_mono store x.userAddress x.id t.userAddress t.id hrec)

theorem mark_excuted_all_marks :
    ∀ (ts : List Trade) (store : List Trade) (t : Trade), t ∈ ts →
      has_record store t.userAddress t.id = true →
      marked_excuted (mark_excuted_all store ts) t.userAddress t.id = true := by
  intro ts
  induction ts with
  | nil => intro store t hmem; simp at hmem
  | cons x rest ih =>
    intro store t hmem hrec
    have hstep : mark_excuted_all store (x :: rest) =
        mark_excuted_all (update_one_excuted store x.userAddress x.id) rest := rfl
    rw [hstep]
    rcases List.mem_cons.mp hmem with rfl | hmem'
    · exact marked_excuted_mark_excuted_all_mono rest _ _ _
        (marked_excuted_update_one_excuted_self store t.userAddress t.id hrec)
    · exact ih _ t hmem'
        (has_record_update_one_excuted_mono store x.userAddress x.id t.userAddress t.id hrec)

theorem marked_bot_get_ready_mono (w n : Nat) :
    ∀ (buf : Buffer) (store : List Trade) (a : String) (i : Nat),
      marked_bot store a i = true →
      marked_bot (get_ready_aggregated_trades w n buf store).store a i = true := by
  intro buf
  induction buf with
  | nil => intro store a i h; exact h
  | cons kv rest ih =>
    intro store a i h
    cases hexp : expired w n kv.2 with
    | true =>
      by_cases h2 : TRADE_AGGREGATION_MIN_TOTAL_USD ≤ kv.2.totalUsdcSize
      · simp only [get_ready_aggregated_trades, hexp, if_true, if_pos h2]
        exact ih store a i h
      · simp only [get_ready_aggregated_trades, hexp, if_true, if_neg h2]
        exact ih _ a i (marked_bot_mark_bot_all_mono kv.2.trades store a i h)
    | false =>
      simp only [get_ready_aggregated_trades, hexp, Bool.false_eq_true, if_false]
      exact ih store a i h

theorem get_ready_marks_constituents (w n : Nat) :
    ∀ (buf : Buffer) (store : List Trade) (k : String) (agg : AggregatedTrade),
      (k, agg) ∈ buf → expired w n agg = true →
      ¬ TRADE_AGGREGATION_MIN_TOTAL_USD ≤ agg.totalUsdcSize →
      ∀ t ∈ agg.trades, has_record store t.userAddress t.id = true →
        marked_bot (get_ready_aggregated_trades w n buf store).store t.userAddress t.id = true := by
  intro buf
  induction buf with
  | nil => intro store k agg hmem; simp at hmem
  | cons kv rest ih =>
    intro store k agg hmem hexp hlow t ht hrec
    rcases List.mem_cons.mp hmem with heq | hmem'
    · cases heq
      simp only [get_ready_aggregated_trades, hexp, if_true, if_neg hlow]
      exact marked_bot_get_ready_mono w n rest _ _ _
        (mark_bot_all_marks agg.trades store t ht hrec)
    · cases hexpkv : expired w n kv.2 with
      | true =>
        by_cases h2 : TRADE_AGGREGATION_MIN_TOTAL_USD ≤ kv.2.totalUsdcSize
        · simp only [get_ready_aggregated_trades, hexpkv, if_true, if_pos h2]
          exact ih store k agg hmem' hexp hlow t ht hrec
        · simp only [get_ready_aggregated_trades, hexpkv, if_true, if_neg h2]
          exact ih _ k agg hmem' hexp hlow t ht
            (has_record_mark_bot_all_mono kv.2.trades store t.userAddress t.id hrec)
      | false =>
        simp only [get_ready_aggregated_trades, hexpkv, Bool.false_eq_true, if_false]
        exact ih store k agg hmem' hexp hlow t ht hrec

theorem not_mem_ready_of_low (w n : Nat) (buf : Buffer) (store : List Trade)
    (agg : AggregatedTrade) (hlow : ¬ TRADE_AGGREGATION_MIN_TOTAL_USD ≤ agg.totalUsdcSize) :
    agg ∉ (get_ready_aggregated_trades w n buf store).ready := by
  intro hmem
  rw [get_ready_ready_eq] at hmem
  rcases List.mem_map.mp hmem with ⟨kv, hkv, hsnd⟩
  have hcond := (List.mem_filter.mp hkv).2
  rcases Bool.and_eq_true_iff.mp hcond with ⟨_, hfloor⟩
  exact hlow (by simpa [hsnd] using of_decide_eq_true hfloor)

/-- C3: when `get_ready_aggregated_trades` runs, every batch whose age has
reached the window is removed from the buffer in that same evaluation and is
either returned as ready (total at or above the floor) or discarded with an
informational skip record (total below the floor) — never both, since the two
outcomes are decided by the same floor test; the surviving buffer is exactly
the set of not-yet-expired entries, so an expired batch is absent on the next
tick and is evaluated at most once.  Batches under the window stay in the
buffer untouched. -/
theorem C3_release_at_most_once (w n : Nat) (buf : Buffer) (store : List Trade) :
    (get_ready_aggregated_trades w n buf store).buf =
        (buf.filter fun kv => !expired w n kv.2) ∧
    (get_ready_aggregated_trades w n buf store).ready =
        (buf.filter fun kv => expired w n kv.2 &&
          decide (TRADE_AGGREGATION_MIN_TOTAL_USD ≤ kv.2.totalUsdcSize)).map Prod.snd ∧
    (∀ k agg, (k, agg) ∈ buf → expired w n agg = true →
      (k, agg) ∉ (get_ready_aggregated_trades w n buf store).buf ∧
      (TRADE_AGGREGATION_MIN_TOTAL_USD ≤ agg.totalUsdcSize →
        agg ∈ (get_ready_aggregated_trades w n buf store).ready) ∧
      (¬ TRADE_AGGREGATION_MIN_TOTAL_USD ≤ agg.totalUsdcSize →
        agg ∉ (get_ready_aggregated_trades w n buf store).ready ∧
        Event.infoSkip agg.userAddress agg.totalUsdcSize agg.trades.length ∈
          (get_ready_aggregated_trades w n buf store).events)) ∧
    (∀ k agg, (k, agg) ∈ buf → expired w n agg = false →
      (k, agg) ∈ (get_ready_aggregated_trades w n buf store).buf) := by
  refine ⟨get_ready_buf_eq w n buf store, get_ready_ready_eq w n buf store, ?_, ?_⟩
  · intro k agg hmem hexp
    refine ⟨?_, ?_, ?_⟩
    · intro hin
      rw [get_ready_buf_eq] at hin
      have := (List.mem_filter.mp hin).2
      simp [hexp] at this
    · intro hfloor
      rw [get_ready_ready_eq]
      refine List.mem_map.mpr ⟨(k, agg), List.mem_filter.mpr ⟨hmem, ?_⟩, rfl⟩
      simp [hexp, hfloor]
    · intro hlow
      exact ⟨not_mem_ready_of_low w n buf store agg hlow,
        get_ready_skip_mem w n buf store k agg hmem hexp hlow⟩
  · intro k agg hmem hfresh
    rw [get_ready_buf_eq]
    exact List.mem_filter.mpr ⟨hmem, by simp [hfresh]⟩

/-- C3 witness: at `now = 100 s` with a 60 s window, the mixed buffer's
expired above-floor batch is released and removed, its expired below-floor
batch is not released, and the batch first seen at 90 s is kept. -/
theorem C3_release_at_most_once_witness :
    (keyA, batchReady) ∉ (get_ready_aggregated_trades 60 100000 bufMixed []).buf ∧
    batchReady ∈ (get_ready_aggregated_trades 60 100000 bufMixed []).ready ∧
    batchLow ∉ (get_ready_aggregated_trades 60 100000 bufMixed []).ready ∧
    (keyC, batchFresh) ∈ (get_ready_aggregated_trades 60 100000 bufMixed []).buf := by
  have h := C3_release_at_most_once 60 100000 bufMixed []
  have ha := h.2.2.1 keyA batchReady (List.mem_cons_self _ _)
    (by with_unfolding_all decide)
  have hb := h.2.2.1 keyB batchLow (List.mem_cons_of_mem _ (List.mem_cons_self _ _))
    (by with_unfolding_all decide)
  have hc := h.2.2.2 keyC batchFresh
    (List.mem_cons_of_mem _ (List.mem_cons_of_mem _ (List.mem_cons_self _ _)))
    (by with_unfolding_all decide)
  exact ⟨ha.1, ha.2.1 (by with_unfolding_all decide),
    (hb.2.2 (by with_unfolding_all decide)).1, hc⟩

/-- C4: a batch that expires with total notional strictly below the floor is
discarded: it is not in the ready list, the informational skip record is
emitted, the release policy posts no orders at all, and every constituent
trade with a record in the store gets that record flagged processed
(`bot = True`) without any dispatch. -/
theorem C4_discard_marks_all_without_dispatch (w n : Nat) (buf : Buffer) (store : List Trade)
    (k : String) (agg : AggregatedTrade)
    (hmem : (k, agg) ∈ buf) (hexp : expired w n agg = true)
    (hlow : ¬ TRADE_AGGREGATION_MIN_TOTAL_USD ≤ agg.totalUsdcSize) :
    agg ∉ (get_ready_aggregated_trades w n buf store).ready ∧
    Event.infoSkip agg.userAddress agg.totalUsdcSize agg.trades.length ∈
      (get_ready_aggregated_trades w n buf store).events ∧
    (∀ e ∈ (get_ready_aggregated_trades w n buf store).events, is_post_event e = false) ∧
    (∀ t ∈ agg.trades, has_record store t.userAddress t.id = true →
      marked_bot (get_ready_aggregated_trades w n buf store).store t.userAddress t.id = true) :=
  ⟨not_mem_ready_of_low w n buf store agg hlow,
   get_ready_skip_mem w n buf store k agg hmem hexp hlow,
   get_ready_no_post w n buf store,
   get_ready_marks_constituents w n buf store k agg hmem hexp hlow⟩

/-- C4 witness: the 0.2 / 0.3 / 0.1 USDC same-key trades, buffered within
10 s, evaluated once 60 s have elapsed: the 0.6 USDC batch is not released,
the skip record is emitted, no order is posted, and all three records are
flagged processed. -/
theorem C4_discard_marks_all_without_dispatch_witness :
    aggThree ∉ (get_ready_aggregated_trades 60 60000 bufThree [tAgg1, tAgg2, tAgg3]).ready ∧
    Event.infoSkip aggThree.userAddress aggThree.totalUsdcSize aggThree.trades.length ∈
      (get_ready_aggregated_trades 60 60000 bufThree [tAgg1, tAgg2, tAgg3]).events ∧
    marked_bot (get_ready_aggregated_trades 60 60000 bufThree [tAgg1, tAgg2, tAgg3]).store
      tAgg1.userAddress tAgg1.id = true ∧
    marked_bot (get_ready_aggregated_trades 60 60000 bufThree [tAgg1, tAgg2, tAgg3]).store
      tAgg2.userAddress tAgg2.id = true ∧
    marked_bot (get_ready_aggregated_trades 60 60000 bufThree [tAgg1, tAgg2, tAgg3]).store
      tAgg3.userAddress tAgg3.id = true := by
  have hmem : (keyThree, aggThree) ∈ bufThree := by
    with_unfolding_all exact List.mem_cons_self _ _
  have ht1 : tAgg1 ∈ aggThree.trades := by
    with_unfolding_all exact List.mem_cons_self _ _
  have ht2 : tAgg2 ∈ aggThree.trades := by
    with_unfolding_all exact List.mem_cons_of_mem _ (List.mem_cons_self _ _)
  have ht3 : tAgg3 ∈ aggThree.trades := by
    with_unfolding_all exact List.mem_cons_of_mem _ (List.mem_cons_of_mem _ (List.mem_cons_self _ _))
  have h := C4_discard_marks_all_without_dispatch 60 60000 bufThree [tAgg1, tAgg2, tAgg3]
    keyThree aggThree hmem (by with_unfolding_all decide) (by with_unfolding_all decide)
  exact ⟨h.1, h.2.1,
    h.2.2.2 tAgg1 ht1 (by with_unfolding_all decide),
    h.2.2.2 tAgg2 ht2 (by with_unfolding_all decide),
    h.2.2.2 tAgg3 ht3 (by with_unfolding_all decide)⟩

theorem add_to_aggregation_buffer_empty (t : Trade) (n : Nat) :
    add_to_aggregation_buffer [] t n = [(get_aggregation_key t, createdBatch t n)] := rfl

theorem add_to_aggregation_buffer_same_key (B : AggregatedTrade) (t : Trade) (n : Nat) :
    add_to_aggregation_buffer [(get_aggregation_key t, B)] t n =
      [(get_aggregation_key t, mergedBatch B t n)] := by
  simp [add_to_aggregation_buffer, bufferGet, bufferSet, List.find?]

theorem mergedBatch_trades (B : AggregatedTrade) (t : Trade) (n : Nat) :
    (mergedBatch B t n).trades = B.trades ++ [t] := rfl

theorem mergedBatch_total (B : AggregatedTrade) (t : Trade) (n : Nat) :
    (mergedBatch B t n).totalUsdcSize = B.totalUsdcSize + t.usdcSize.getD 0 := rfl

theorem mergedBatch_avg (B : AggregatedTrade) (t : Trade) (n : Nat)
    (h : 0 < (mergedBatch B t n).totalUsdcSize) :
    (mergedBatch B t n).averagePrice =
      ((mergedBatch B t n).trades.map fun x => x.usdcSize.getD 0 * x.price.getD 0).sum /
        (mergedBatch B t n).totalUsdcSize := by
  simp only [mergedBatch] at h ⊢
  rw [if_pos h]

theorem foldl_add_same_key (k : String) :
    ∀ (l : List (Trade × Nat)) (B : AggregatedTrade),
      (∀ p ∈ l, get_aggregation_key p.1 = k) →
      B.totalUsdcSize = (B.trades.map fun t => t.usdcSize.getD 0).sum →
      (0 < B.totalUsdcSize → B.averagePrice =
        (B.trades.map fun t => t.usdcSize.getD 0 * t.price.getD 0).sum / B.totalUsdcSize) →
      ∃ B', (l.foldl (fun buf p => add_to_aggregation_buffer buf p.1 p.2) [(k, B)]) =
          [(k, B')] ∧
        B'.trades = B.trades ++ l.map Prod.fst ∧
        B'.totalUsdcSize = (B'.trades.map fun t => t.usdcSize.getD 0).sum ∧
        (0 < B'.totalUsdcSize → B'.averagePrice =
          (B'.trades.map fun t => t.usdcSize.getD 0 * t.price.getD 0).sum /
            B'.totalUsdcSize) := by
  intro l
  induction l with
  | nil =>
    intro B _ htot havg
    exact ⟨B, rfl, by simp, htot, havg⟩
  | cons p rest ih =>
    intro B hkey htot havg
    have hk : get_aggregation_key p.1 = k := hkey p (List.mem_cons_self _ _)
    have hstep : (p :: rest).foldl (fun buf q => add_to_aggregation_buffer buf q.1 q.2)
        [(k, B)] =
        rest.foldl (fun buf q => add_to_aggregation_buffer buf q.1 q.2)
          [(k, mergedBatch B p.1 p.2)] := by
      have : add_to_aggregation_buffer [(k, B)] p.1 p.2 = [(k, mergedBatch B p.1 p.2)] := by
        rw [← hk]
        exact add_to_aggregation_buffer_same_key B p.1 p.2
      simp [List.foldl_cons, this]
    have htot' : (mergedBatch B p.1 p.2).totalUsdcSize =
        ((mergedBatch B p.1 p.2).trades.map fun t => t.usdcSize.getD 0).sum := by
      rw [mergedBatch_total, mergedBatch_trades, htot]
      simp
    have havg' : 0 < (mergedBatch B p.1 p.2).totalUsdcSize →
        (mergedBatch B p.1 p.2).averagePrice =
          ((mergedBatch B p.1 p.2).trades.map fun t =>
            t.usdcSize.getD 0 * t.price.getD 0).sum / (mergedBatch B p.1 p.2).totalUsdcSize :=
      mergedBatch_avg B p.1 p.2
    rcases ih (mergedBatch B p.1 p.2) (fun q hq => hkey q (List.mem_cons_of_mem _ hq))
        htot' havg' with ⟨B', hfold, htr, h1, h2⟩
    refine ⟨B', by rw [hstep]; exact hfold, ?_, h1, h2⟩
    rw [htr, mergedBatch_trades]
    simp

theorem weighted_sum_le_max (M : ℚ) :
    ∀ ts : List Trade, (∀ t ∈ ts, 0 ≤ t.usdcSize.getD 0) →
      (∀ t ∈ ts, t.price.getD 0 ≤ M) →
      (ts.map fun t => t.usdcSize.getD 0 * t.price.getD 0).sum ≤
        (ts.map fun t => t.usdcSize.getD 0).sum * M := by
  intro ts
  induction ts with
  | nil => intro _ _; simp
  | cons t rest ih =>
    intro hw hp
    simp only [List.map_cons, List.sum_cons, add_mul]
    have h1 : t.usdcSize.getD 0 * t.price.getD 0 ≤ t.usdcSize.getD 0 * M :=
      mul_le_mul_of_nonneg_left (hp t (List.mem_cons_self _ _))
        (hw t (List.mem_cons_self _ _))
    exact add_le_add h1 (ih (fun x hx => hw x (List.mem_cons_of_mem _ hx))
      (fun x hx => hp x (List.mem_cons_of_mem _ hx)))

theorem min_le_weighted_sum (m : ℚ) :
    ∀ ts : List Trade, (∀ t ∈ ts, 0 ≤ t.usdcSize.getD 0) →
      (∀ t ∈ ts, m ≤ t.price.getD 0) →
      (ts.map fun t => t.usdcSize.getD 0).sum * m ≤
        (ts.map fun t => t.usdcSize.getD 0 * t.price.getD 0).sum := by
  intro ts
  induction ts with
  | nil => intro _ _; simp
  | cons t rest ih =>
    intro hw hp
    simp only [List.map_cons, List.sum_cons, add_mul]
    have h1 : t.usdcSize.getD 0 * m ≤ t.usdcSize.getD 0 * t.price.getD 0 :=
      mul_le_mul_of_nonneg_left (hp t (List.mem_cons_self _ _))
        (hw t (List.mem_cons_self _ _))
    exact add_le_add h1 (ih (fun x hx => hw x (List.mem_cons_of_mem _ hx))
      (fun x hx => hp x (List.mem_cons_of_mem _ hx)))

/-- C5 amended: for a batch built by `add_to_aggregation_buffer` from a
nonempty sequence of same-key trades whose sizes are non-negative AND whose
`totalUsdcSize` is strictly positive, the recomputed `averagePrice` lies
between any lower bound and any upper bound of the constituent prices — in
particular within `[min(prices), max(prices)]`.  The positivity hypothesis is
forced by `C5_counterexample_zero_size_batch`: with all-zero sizes the code
sets `averagePrice` to 0, which can fall outside the price range. -/
theorem C5_weighted_average_bounded (t0 : Trade) (n0 : Nat) (l : List (Trade × Nat))
    (B : AggregatedTrade) (m M : ℚ)
    (hkey : ∀ p ∈ l, get_aggregation_key p.1 = get_aggregation_key t0)
    (hB : buildBuffer ((t0, n0) :: l) = [(get_aggregation_key t0, B)])
    (hw : ∀ t ∈ B.trades, 0 ≤ t.usdcSize.getD 0)
    (hpos : 0 < B.totalUsdcSize)
    (hm : ∀ t ∈ B.trades, m ≤ t.price.getD 0)
    (hM : ∀ t ∈ B.trades, t.price.getD 0 ≤ M) :
    m ≤ B.averagePrice ∧ B.averagePrice ≤ M := by
  have hbuild : buildBuffer ((t0, n0) :: l) =
      l.foldl (fun buf q => add_to_aggregation_buffer buf q.1 q.2)
        [(get_aggregation_key t0, createdBatch t0 n0)] := rfl
  have hctot : (createdBatch t0 n0).totalUsdcSize =
      ((createdBatch t0 n0).trades.map fun t => t.usdcSize.getD 0).sum := by
    simp [createdBatch]
  have hcavg : 0 < (createdBatch t0 n0).totalUsdcSize →
      (createdBatch t0 n0).averagePrice =
        ((createdBatch t0 n0).trades.map fun t =>
          t.usdcSize.getD 0 * t.price.getD 0).sum / (createdBatch t0 n0).totalUsdcSize := by
    intro hc
    have hne : t0.usdcSize.getD 0 ≠ 0 := by
      simp only [createdBatch] at hc
      exact ne_of_gt hc
    simp only [createdBatch, List.map_cons, List.map_nil, List.sum_cons, List.sum_nil,
      add_zero]
    exact (mul_div_cancel_left₀ _ hne).symm
  rcases foldl_add_same_key (get_aggregation_key t0) l (createdBatch t0 n0) hkey hctot hcavg
    with ⟨B', hfold, _, h1, h2⟩
  have hBB : B = B' := by
    rw [hbuild, hfold] at hB
    exact ((Prod.mk.injEq _ _ _ _).mp (List.cons_eq_cons.mp hB).1).2.symm
  subst hBB
  have havg := h2 hpos
  have hpos' : 0 < (B.trades.map fun t => t.usdcSize.getD 0).sum := by rw [← h1]; exact hpos
  constructor
  · rw [havg, h1, le_div_iff₀ hpos']
    have := min_le_weighted_sum m B.trades hw hm
    linarith [this]
  · rw [havg, h1, div_le_iff₀ hpos']
    have := weighted_sum_le_max M B.trades hw hM
    linarith [this]

/-- C5 witness: constituents 1 USDC at price 0.5 and 3 USDC at price 0.25
(total 4 > 0); the recomputed average 0.3125 lies within [0.25, 0.5]. -/
theorem C5_weighted_average_bounded_witness :
    (1/4 : ℚ) ≤ aggW.averagePrice ∧ aggW.averagePrice ≤ (1/2 : ℚ) := by
  have hB : buildBuffer [(tW1, 0), (tW2, 0)] = [(get_aggregation_key tW1, aggW)] := by
    with_unfolding_all exact rfl
  exact C5_weighted_average_bounded tW1 0 [(tW2, 0)] aggW (1/4) (1/2)
    (by with_unfolding_all decide) hB (by with_unfolding_all decide)
    (by with_unfolding_all decide) (by with_unfolding_all decide)
    (by with_unfolding_all decide)

theorem marks_precede_nil : marks_precede [] := by
  intro j a ids t hj
  simp at hj

theorem marks_precede_append (e1 e2 : List Event)
    (h1 : marks_precede e1) (h2 : marks_precede e2) : marks_precede (e1 ++ e2) := by
  intro j action ids trade hj id hid
  by_cases hlt : j < e1.length
  · rw [List.get?_append hlt] at hj
    rcases h1 j action ids trade hj id hid with ⟨i, u, hij, hi⟩
    exact ⟨i, u, hij, by rw [List.get?_append (lt_trans hij hlt)]; exact hi⟩
  · push_neg at hlt
    rw [List.get?_append_right hlt] at hj
    rcases h2 (j - e1.length) action ids trade hj id hid with ⟨i, u, hij, hi⟩
    refine ⟨e1.length + i, u, by omega, ?_⟩
    rw [List.get?_append_right (by omega)]
    simpa using hi

theorem marks_precede_single_mark (u : String) (i : Nat) :
    marks_precede [Event.markExcuted u i] := by
  intro j a ids t hj id hid
  match j, hj with
  | 0, hj => simp at hj
  | n + 1, hj => simp at hj

theorem marks_precede_mark_post (u : String) (i : Nat) (a : String) (tr : Trade) :
    marks_precede [Event.markExcuted u i, Event.postOrder a [i] tr] := by
  intro j act ids t hj id hid
  match j, hj with
  | 0, hj => simp at hj
  | 1, hj =>
    have hp : Event.postOrder a [i] tr = Event.postOrder act ids t := by simpa using hj
    cases hp
    rcases List.mem_singleton.mp hid with rfl
    exact ⟨0, u, by omega, rfl⟩
  | n + 2, hj => simp at hj

theorem marks_precede_marks_only (ts : List Trade) :
    marks_precede (ts.map fun t => Event.markExcuted t.userAddress t.id) := by
  intro j a ids tr hj id hid
  rw [List.get?_map] at hj
  cases h : ts.get? j with
  | none => rw [h] at hj; simp at hj
  | some x => rw [h] at hj; simp at hj

theorem marks_precede_marks_post (ts : List Trade) (a : String) (tr : Trade) :
    marks_precede ((ts.map fun t => Event.markExcuted t.userAddress t.id) ++
      [Event.postOrder a (ts.map fun t => t.id) tr]) := by
  intro j act ids t hj id hid
  by_cases hlt : j < (ts.map fun t => Event.markExcuted t.userAddress t.id).length
  · exfalso
    rw [List.get?_append hlt, List.get?_map] at hj
    cases h : ts.get? j with
    | none => rw [h] at hj; simp at hj
    | some x => rw [h] at hj; simp at hj
  · push_neg at hlt
    rw [List.get?_append_right hlt] at hj
    have hz : j - (ts.map fun t => Event.markExcuted t.userAddress t.id).length = 0 := by
      cases hd : j - (ts.map fun t => Event.markExcuted t.userAddress t.id).length with
      | zero => rfl
      | succ n => rw [hd] at hj; simp at hj
    rw [hz] at hj
    have hp : Event.postOrder a (ts.map fun t => t.id) tr = Event.postOrder act ids t := by
      simpa using hj
    cases hp
    rcases List.mem_map.mp hid with ⟨x, hx, rfl⟩
    rcases List.mem_iff_get.mp hx with ⟨⟨n, hn⟩, hget⟩
    have hlen : (ts.map fun t => Event.markExcuted t.userAddress t.id).length = ts.length :=
      List.length_map ts _
    refine ⟨n, x.userAddress, by omega, ?_⟩
    rw [List.get?_append (by rw [hlen]; omega), List.get?_map, List.get?_eq_get hn, hget]
    rfl

theorem marks_precede_do_one_trade (collab : Collab) (store : List Trade) (trade : Trade) :
    marks_precede (do_one_trade collab store trade).events := by
  simp only [do_one_trade]
  split
  · exact marks_precede_single_mark _ _
  · split
    · exact marks_precede_single_mark _ _
    · split
      · exact marks_precede_single_mark _ _
      · split
        · exact marks_precede_mark_post _ _ _ _
        · exact marks_precede_mark_post _ _ _ _

theorem marks_precede_do_trading (collab : Collab) :
    ∀ (trades : List Trade) (store : List Trade),
      marks_precede (do_trading collab store trades).events := by
  intro trades
  induction trades with
  | nil => intro store; exact marks_precede_nil
  | cons t rest ih =>
    intro store
    simp only [do_trading]
    split
    · exact marks_precede_do_one_trade collab store t
    · exact marks_precede_append _ _ (marks_precede_do_one_trade collab store t) (ih _)

theorem marks_precede_do_one_agg (collab : Collab) (store : List Trade)
    (agg : AggregatedTrade) : marks_precede (do_one_agg collab store agg).events := by
  simp only [do_one_agg]
  split
  · exact marks_precede_marks_only _
  · split
    · exact marks_precede_marks_only _
    · split
      · exact marks_precede_marks_only _
      · split
        · exact marks_precede_marks_post _ _ _
        · exact marks_precede_marks_post _ _ _

theorem marks_precede_do_aggregated (collab : Collab) :
    ∀ (aggs : List AggregatedTrade) (store : List Trade),
      marks_precede (do_aggregated_trading collab store aggs).events := by
  intro aggs
  induction aggs with
  | nil => intro store; exact marks_precede_nil
  | cons agg rest ih =>
    intro store
    simp only [do_aggregated_trading]
    split
    · exact marks_precede_do_one_agg collab store agg
    · exact marks_precede_append _ _ (marks_precede_do_one_agg collab store agg) (ih _)

/-- C6: in both dispatch functions, for every post-order call and every
constituent record id it carries, the `botExcutedTime = 1` store update for
that id appears strictly earlier in the emitted action trace: a record is
never dispatched before it has been marked processed.  This holds for every
collaborator behaviour, store and input list. -/
theorem C6_mark_processed_before_dispatch :
    (∀ (collab : Collab) (store : List Trade) (trades : List Trade),
      marks_precede (do_trading collab store trades).events) ∧
    (∀ (collab : Collab) (store : List Trade) (aggs : List AggregatedTrade),
      marks_precede (do_aggregated_trading collab store aggs).events) :=
  ⟨fun collab store trades => marks_precede_do_trading collab trades store,
   fun collab store aggs => marks_precede_do_aggregated collab aggs store⟩

/-- C6 witness: dispatching the 5-USDC trade, the post-order event sits at
index 1 of the trace and the theorem yields its mark event strictly before
it. -/
theorem C6_mark_processed_before_dispatch_witness :
    ∃ i u, i < 1 ∧ (do_trading okCollab [tFive] [tFive]).events.get? i =
      some (Event.markExcuted u tFive.id) :=
  C6_mark_processed_before_dispatch.1 okCollab [tFive] [tFive] 1 buyActionStr
    [tFive.id] tFive (by with_unfolding_all rfl) tFive.id (List.mem_singleton.mpr rfl)

/-- C7 amended: dispatch errors are NOT caught inside the loop.  When the
processing of a trade raises (a failing order placement or balance/position
fetch), `do_trading` stops at that trade and returns the error — the trades
after it are neither marked nor dispatched — and with aggregation disabled
the executor tick and the running loop terminate with that error instead of
proceeding to the next trade.  (The failing trade's own record stays marked,
since marking precedes dispatch.) -/
theorem C7_dispatch_error_propagates (collab : Collab) (store : List Trade) (t : Trade)
    (rest : List Trade) (e : String) (h : (do_one_trade collab store t).err = some e) :
    (do_trading collab store (t :: rest)).err = some e ∧
    (do_trading collab store (t :: rest)).events = (do_one_trade collab store t).events ∧
    (do_trading collab store (t :: rest)).store = (do_one_trade collab store t).store ∧
    (∀ (cfg : Config) (sig : Nat → Bool) (fuel readIdx now : Nat) (buf : Buffer),
      cfg.aggregationEnabled = false → sig readIdx = true →
      read_temp_trades cfg.addresses store = t :: rest →
      (executor_loop cfg collab sig (fuel + 1) readIdx now store buf).err = some e) := by
  have hcore : do_trading collab store (t :: rest) =
      ⟨(do_one_trade collab store t).store, (do_one_trade collab store t).events, some e⟩ := by
    simp only [do_trading, h]
  refine ⟨by rw [hcore], by rw [hcore], by rw [hcore], ?_⟩
  intro cfg sig fuel readIdx now buf henabled hsig hread
  have htick : executor_tick cfg collab now store buf =
      ⟨(do_one_trade collab store t).store, buf,
       (do_one_trade collab store t).events, some e⟩ := by
    simp only [executor_tick, henabled, Bool.false_eq_true, if_false, hread, hcore]
  simp only [executor_loop, hsig, if_true, htick]

/-- C7 witness: the failing order-placement collaborator on two unprocessed
trades — the first trade's error comes back out of `do_trading` and out of
the loop. -/
theorem C7_dispatch_error_propagates_witness :
    (do_trading failPostCollab [tFail1, tFail2] [tFail1, tFail2]).err = some boomStr ∧
    (executor_loop cfgNoAgg failPostCollab sigTrue 1 0 0 [tFail1, tFail2] []).err =
      some boomStr := by
  have h := C7_dispatch_error_propagates failPostCollab [tFail1, tFail2] tFail1 [tFail2]
    boomStr (by with_unfolding_all rfl)
  exact ⟨h.1, h.2.2.2 cfgNoAgg sigTrue 0 0 0 [] rfl rfl (by with_unfolding_all rfl)⟩

theorem do_one_trade_mkCollab (fp : String → List Position) (bal : String → ℚ)
    (store : List Trade) (t : Trade) :
    do_one_trade (mkCollab fp bal) store t =
      ⟨update_one_excuted store t.userAddress t.id,
       [Event.markExcuted t.userAddress t.id,
        Event.postOrder (if t.side == some buyStr then buyActionStr else sellActionStr)
          [t.id] t], none⟩ := rfl

theorem do_trading_mkCollab (fp : String → List Position) (bal : String → ℚ) :
    ∀ (trades store : List Trade),
      do_trading (mkCollab fp bal) store trades =
        ⟨mark_excuted_all store trades,
         trades.flatMap (fun t =>
           [Event.markExcuted t.userAddress t.id,
            Event.postOrder (if t.side == some buyStr then buyActionStr else sellActionStr)
              [t.id] t]),
         none⟩ := by
  intro trades
  induction trades with
  | nil => intro store; rfl
  | cons t rest ih =>
    intro store
    simp only [do_trading, do_one_trade_mkCollab, ih]
    rfl

theorem read_temp_trades_mem (addrs : List String) (store : List Trade) (t : Trade)
    (h : t ∈ read_temp_trades addrs store) : t ∈ store := by
  simp only [read_temp_trades, List.mem_flatten] at h
  rcases h with ⟨l, hl, htl⟩
  rcases List.mem_map.mp hl with ⟨a, _, rfl⟩
  exact List.mem_of_mem_filter htl

theorem executor_tick_disabled (collab : Collab) (addrs : List String) (w now : Nat)
    (store : List Trade) (buf : Buffer) :
    executor_tick ⟨addrs, false, w⟩ collab now store buf =
      ⟨(do_trading collab store (read_temp_trades addrs store)).store, buf,
       (do_trading collab store (read_temp_trades addrs store)).events,
       (do_trading collab store (read_temp_trades addrs store)).err⟩ := by
  simp only [executor_tick, Bool.false_eq_true, if_false]

theorem executor_loop_disabled_buffer (addrs : List String) (w : Nat) (collab : Collab)
    (sig : Nat → Bool) :
    ∀ (fuel readIdx now : Nat) (store : List Trade),
      (executor_loop ⟨addrs, false, w⟩ collab sig fuel readIdx now store []).buffer = [] := by
  intro fuel
  induction fuel with
  | zero => intro readIdx now store; rfl
  | succ n ih =>
    intro readIdx now store
    simp only [executor_loop]
    cases hs : sig readIdx with
    | false => simp
    | true =>
      simp only [if_true]
      rw [executor_tick_disabled]
      cases herr : (do_trading collab store (read_temp_trades addrs store)).err with
      | some e => simp [herr]
      | none =>
        simp only [herr]
        cases hs2 : sig (readIdx + 1) with
        | false => simp
        | true => simp only [if_true]; exact ih _ _ _

/-- C8: with trade aggregation disabled, every pass of the loop leaves the
aggregation buffer exactly as it was (a run started with an empty buffer
keeps it empty for its whole duration), no error arises under succeeding
collaborators, every fetched trade yields exactly its own mark event and one
singleton post-order event carrying the trade's own notional, and every
fetched trade's store record ends the tick flagged `botExcutedTime = 1`. -/
theorem C8_disabled_dispatches_all_without_buffering (addrs : List String) (w : Nat)
    (fp : String → List Position) (bal : String → ℚ) (now : Nat)
    (store : List Trade) (buf : Buffer) :
    (executor_tick ⟨addrs, false, w⟩ (mkCollab fp bal) now store buf).buffer = buf ∧
    (executor_tick ⟨addrs, false, w⟩ (mkCollab fp bal) now store buf).err = none ∧
    (executor_tick ⟨addrs, false, w⟩ (mkCollab fp bal) now store buf).events =
      (read_temp_trades addrs store).flatMap (fun t =>
        [Event.markExcuted t.userAddress t.id,
         Event.postOrder (if t.side == some buyStr then buyActionStr else sellActionStr)
           [t.id] t]) ∧
    (∀ t ∈ read_temp_trades addrs store,
      marked_excuted (executor_tick ⟨addrs, false, w⟩ (mkCollab fp bal) now store buf).store
        t.userAddress t.id = true) ∧
    (∀ (collab : Collab) (sig : Nat → Bool) (fuel readIdx now' : Nat) (store' : List Trade),
      (executor_loop ⟨addrs, false, w⟩ collab sig fuel readIdx now' store' []).buffer = []) := by
  rw [executor_tick_disabled, do_trading_mkCollab]
  refine ⟨rfl, rfl, rfl, ?_, fun collab sig fuel readIdx now' store' =>
    executor_loop_disabled_buffer addrs w collab sig fuel readIdx now' store'⟩
  intro t ht
  have hrec : has_record store t.userAddress t.id = true :=
    List.any_eq_true.mpr ⟨t, read_temp_trades_mem addrs store t ht, by simp⟩
  exact mark_excuted_all_marks (read_temp_trades addrs store) store t ht hrec

/-- C8 witness: a single 5-USDC trade with aggregation disabled — one
singleton post-order with the trade's own notional, the record marked, and
the buffer left empty. -/
theorem C8_disabled_dispatches_all_without_buffering_witness :
    (executor_tick ⟨[addrStr], false, 60⟩ okCollab 0 [tFive] []).buffer = [] ∧
    (executor_tick ⟨[addrStr], false, 60⟩ okCollab 0 [tFive] []).events =
      [Event.markExcuted addrStr 1, Event.postOrder buyActionStr [1] tFive] ∧
    tFive.usdcSize = some 5 ∧
    marked_excuted (executor_tick ⟨[addrStr], false, 60⟩ okCollab 0 [tFive] []).store
      addrStr 1 = true := by
  simp only [okCollab]
  have h := C8_disabled_dispatches_all_without_buffering [addrStr] 60
    (fun _ => []) (fun _ => 0) 0 [tFive] []
  refine ⟨h.1, ?_, by with_unfolding_all rfl, ?_⟩
  · rw [h.2.2.1]
    with_unfolding_all rfl
  · have ht : tFive ∈ read_temp_trades [addrStr] [tFive] := by
      with_unfolding_all exact List.mem_cons_self _ _
    exact h.2.2.2.1 tFive ht


theorem no_checks_append (l m : List Event)
    (hl : ∀ e ∈ l, is_check_event e = false) (hm : ∀ e ∈ m, is_check_event e = false) :
    ∀ e ∈ l ++ m, is_check_event e = false := by
  intro e he
  rcases List.mem_append.mp he with h | h
  · exact hl e h
  · exact hm e h

theorem no_checks_single_mark (u : String) (i : Nat) :
    ∀ e ∈ [Event.markExcuted u i], is_check_event e = false := by
  intro e he
  rcases List.mem_singleton.mp he with rfl
  rfl

theorem no_checks_mark_post (u : String) (i : Nat) (a : String) (ids : List Nat) (tr : Trade) :
    ∀ e ∈ [Event.markExcuted u i, Event.postOrder a ids tr], is_check_event e = false := by
  intro e he
  rcases List.mem_cons.mp he with rfl | he'
  · rfl
  · rcases List.mem_singleton.mp he' with rfl
    rfl

theorem no_checks_marks (ts : List Trade) :
    ∀ e ∈ ts.map fun t => Event.markExcuted t.userAddress t.id, is_check_event e = false := by
  intro e he
  rcases List.mem_map.mp he with ⟨t, _, rfl⟩
  rfl

theorem no_checks_marks_post (ts : List Trade) (a : String) (ids : List Nat) (tr : Trade) :
    ∀ e ∈ (ts.map fun t => Event.markExcuted t.userAddress t.id) ++
        [Event.postOrder a ids tr], is_check_event e = false := by
  refine no_checks_append _ _ (no_checks_marks ts) ?_
  intro e he
  rcases List.mem_singleton.mp he with rfl
  rfl

theorem no_checks_do_one_trade (collab : Collab) (store : List Trade) (t : Trade) :
    ∀ e ∈ (do_one_trade collab store t).events, is_check_event e = false := by
  simp only [do_one_trade]
  split
  · exact no_checks_single_mark _ _
  · split
    · exact no_checks_single_mark _ _
    · split
      · exact no_checks_single_mark _ _
      · split
        · exact no_checks_mark_post _ _ _ _ _
        · exact no_checks_mark_post _ _ _ _ _

theorem no_checks_do_trading (collab : Collab) :
    ∀ (trades store : List Trade),
      ∀ e ∈ (do_trading collab store trades).events, is_check_event e = false := by
  intro trades
  induction trades with
  | nil => intro store e he; simp [do_trading] at he
  | cons t rest ih =>
    intro store
    simp only [do_trading]
    split
    · exact no_checks_do_one_trade collab store t
    · exact no_checks_append _ _ (no_checks_do_one_trade collab store t) (ih _)

theorem no_checks_do_one_agg (collab : Collab) (store : List Trade) (agg : AggregatedTrade) :
    ∀ e ∈ (do_one_agg collab store agg).events, is_check_event e = false := by
  simp only [do_one_agg]
  split
  · exact no_checks_marks _
  · split
    · exact no_checks_marks _
    · split
      · exact no_checks_marks _
      · split
        · exact no_checks_marks_post _ _ _ _
        · exact no_checks_marks_post _ _ _ _

theorem no_checks_do_aggregated (collab : Collab) :
    ∀ (aggs : List AggregatedTrade) (store : List Trade),
      ∀ e ∈ (do_aggregated_trading collab store aggs).events, is_check_event e = false := by
  intro aggs
  induction aggs with
  | nil => intro store e he; simp [do_aggregated_trading] at he
  | cons agg rest ih =>
    intro store
    simp only [do_aggregated_trading]
    split
    · exact no_checks_do_one_agg collab store agg
    · exact no_checks_append _ _ (no_checks_do_one_agg collab store agg) (ih _)

theorem no_checks_discard_events (agg : AggregatedTrade) :
    ∀ e ∈ discard_events agg, is_check_event e = false := by
  intro e he
  rcases List.mem_cons.mp he with rfl | hmap
  · rfl
  · rcases List.mem_map.mp hmap with ⟨t, _, rfl⟩
    rfl

theorem no_checks_get_ready (w n : Nat) :
    ∀ (buf : Buffer) (store : List Trade),
      ∀ e ∈ (get_ready_aggregated_trades w n buf store).events, is_check_event e = false := by
  intro buf
  induction buf with
  | nil => intro store e he; simp [get_ready_aggregated_trades] at he
  | cons kv rest ih =>
    intro store
    cases h : expired w n kv.2 with
    | true =>
      by_cases h2 : TRADE_AGGREGATION_MIN_TOTAL_USD ≤ kv.2.totalUsdcSize
      · simp only [get_ready_aggregated_trades, h, if_true, if_pos h2]
        exact ih store
      · simp only [get_ready_aggregated_trades, h, if_true, if_neg h2]
        exact no_checks_append _ _ (no_checks_discard_events kv.2) (ih _)
    | false =>
      simp only [get_ready_aggregated_trades, h, Bool.false_eq_true, if_false]
      exact ih store

theorem no_checks_process_fetched (collab : Collab) (now : Nat) :
    ∀ (trades : List Trade) (store : List Trade) (buf : Buffer),
      ∀ e ∈ (process_fetched_trades collab now store buf trades).events,
        is_check_event e = false := by
  intro trades
  induction trades with
  | nil => intro store buf e he; simp [process_fetched_trades] at he
  | cons t rest ih =>
    intro store buf
    simp only [process_fetched_trades]
    split
    · exact ih _ _
    · split
      · exact no_checks_do_trading collab [t] store
      · exact no_checks_append _ _ (no_checks_do_trading collab [t] store) (ih _ _)

theorem no_checks_executor_tick (cfg : Config) (collab : Collab) (now : Nat)
    (store : List Trade) (buf : Buffer) :
    ∀ e ∈ (executor_tick cfg collab now store buf).events, is_check_event e = false := by
  simp only [executor_tick]
  split
  · split
    · exact no_checks_process_fetched collab now _ store buf
    · exact no_checks_append _ _
        (no_checks_append _ _ (no_checks_process_fetched collab now _ store buf)
          (no_checks_get_ready _ now _ _))
        (no_checks_do_aggregated _ _ _)
  · exact no_checks_do_trading collab _ store

theorem ends_at_stop_append (l m : List Event)
    (h : ∀ e ∈ l, is_check_event e = false) :
    ends_at_stop (l ++ m) = ends_at_stop m := by
  induction l with
  | nil => rfl
  | cons e rest ih =>
    have he : is_check_event e = false := h e (List.mem_cons_self _ _)
    have hne : ¬ e = Event.checkSignal false := by
      intro hc
      rw [hc] at he
      simp [is_check_event] at he
    simp only [List.cons_append, ends_at_stop, if_neg hne]
    exact ih fun x hx => h x (List.mem_cons_of_mem _ hx)

theorem ends_at_stop_of_no_checks (l : List Event)
    (h : ∀ e ∈ l, is_check_event e = false) : ends_at_stop l = true := by
  have := ends_at_stop_append l [] h
  simpa using this

/-- C9 amended: the stop signal is read at the top of every pass of the loop
and once more after the pass's dispatch work (before the pacing sleep), and
nowhere else — in particular not between dispatch steps within a tick.  The
first event of any run is the guard read, and any read that observes the stop
request is the final event of the whole trace: after an observed stop the
loop performs no further dispatch and starts no further tick.  If already the
guard read observes the stop, the pass does nothing at all. -/
theorem C9_stop_checked_at_tick_boundaries (cfg : Config) (collab : Collab)
    (sig : Nat → Bool) :
    (∀ (fuel readIdx now : Nat) (store : List Trade) (buf : Buffer),
      ends_at_stop (executor_loop cfg collab sig fuel readIdx now store buf).events = true) ∧
    (∀ (fuel readIdx now : Nat) (store : List Trade) (buf : Buffer),
      (executor_loop cfg collab sig (fuel + 1) readIdx now store buf).events.head? =
        some (Event.checkSignal (sig readIdx))) ∧
    (∀ (fuel readIdx now : Nat) (store : List Trade) (buf : Buffer),
      sig readIdx = false →
      executor_loop cfg collab sig (fuel + 1) readIdx now store buf =
        ⟨store, buf, [Event.checkSignal false], none⟩) := by
  refine ⟨?_, ?_, ?_⟩
  · intro fuel
    induction fuel with
    | zero => intro readIdx now store buf; rfl
    | succ n ih =>
      intro readIdx now store buf
      simp only [executor_loop]
      cases hs : sig readIdx with
      | false => rfl
      | true =>
        simp only [if_true]
        cases herr : (executor_tick cfg collab now store buf).err with
        | some e =>
          simp only [herr, ends_at_stop, if_neg (by simp : ¬ Event.checkSignal true =
            Event.checkSignal false)]
          exact ends_at_stop_of_no_checks _ (no_checks_executor_tick cfg collab now store buf)
        | none =>
          simp only [herr]
          cases hs2 : sig (readIdx + 1) with
          | false =>
            simp only [Bool.false_eq_true, if_false, ends_at_stop, List.append_eq,
              if_neg (by simp : ¬ Event.checkSignal true = Event.checkSignal false)]
            rw [ends_at_stop_append _ _ (no_checks_executor_tick cfg collab now store buf)]
            rfl
          | true =>
            simp only [if_true, ends_at_stop, List.append_eq,
              if_neg (by simp : ¬ Event.checkSignal true = Event.checkSignal false)]
            rw [ends_at_stop_append _ _ (no_checks_executor_tick cfg collab now store buf)]
            simp only [ends_at_stop,
              if_neg (by simp : ¬ Event.checkSignal true = Event.checkSignal false)]
            exact ih (readIdx + 2) (now + 300) _ _
  · intro fuel readIdx now store buf
    simp only [executor_loop]
    cases hs : sig readIdx with
    | false => rfl
    | true =>
      simp only [if_true]
      cases herr : (executor_tick cfg collab now store buf).err with
      | some e => rfl
      | none =>
        cases hs2 : sig (readIdx + 1) with
        | false => rfl
        | true => rfl
  · intro fuel readIdx now store buf hs
    simp only [executor_loop, hs, Bool.false_eq_true, if_false]

/-- C9 amended witness: with the stop request landing right after the guard
read, the run's trace ends at its stop observation, the trace begins with the
guard read, and a pass whose guard read already observes the stop does
nothing. -/
theorem C9_stop_checked_at_tick_boundaries_witness :
    ends_at_stop
      (executor_loop cfgAgg okCollab sigStopAfterFirst 1 0 0 [tImm1, tImm2] []).events = true ∧
    (executor_loop cfgAgg okCollab sigStopAfterFirst 1 0 0 [tImm1, tImm2] []).events.head? =
      some (Event.checkSignal true) ∧
    executor_loop cfgAgg okCollab sigStopAfterFirst 1 2 300 [tImm1, tImm2] [] =
      ⟨[tImm1, tImm2], [], [Event.checkSignal false], none⟩ := by
  have h := C9_stop_checked_at_tick_boundaries cfgAgg okCollab sigStopAfterFirst
  exact ⟨h.1 1 0 0 [tImm1, tImm2] [], h.2.1 0 0 0 [tImm1, tImm2] [],
    h.2.2 0 2 300 [tImm1, tImm2] [] rfl⟩


theorem expired_createdBatch_false (w now : Nat) (t : Trade) (hw : 0 < w) :
    expired w now (createdBatch t now) = false := by
  simp only [expired, createdBatch]
  rw [decide_eq_false_iff_not]
  intro hle
  omega

/-- C2 amended: with aggregation enabled, the per-trade routing condition is
`side == "BUY" AND notional < floor ⇒ buffer (unmarked)`; every other fetched
trade — in particular every trade whose notional meets the floor, but also
any sub-floor trade whose side is not BUY — is dispatched immediately as a
singleton order and marked processed, with no buffer entry created.  (The
claim's direction "floor met AND BUY ⇒ immediate, otherwise buffer" fails on
the code for sub-floor non-BUY trades, see the counterexample.) -/
theorem C2_buy_below_floor_buffers_others_dispatch (addrs : List String) (w : Nat)
    (fp : String → List Position) (bal : String → ℚ) (now : Nat)
    (store : List Trade) (t : Trade)
    (hw : 0 < w) (hread : read_temp_trades addrs store = [t]) :
    ((t.side == some buyStr &&
        decide (t.usdcSize.getD 0 < TRADE_AGGREGATION_MIN_TOTAL_USD)) = true →
      executor_tick ⟨addrs, true, w⟩ (mkCollab fp bal) now store [] =
        ⟨store, [(get_aggregation_key t, createdBatch t now)], [], none⟩) ∧
    ((t.side == some buyStr &&
        decide (t.usdcSize.getD 0 < TRADE_AGGREGATION_MIN_TOTAL_USD)) = false →
      executor_tick ⟨addrs, true, w⟩ (mkCollab fp bal) now store [] =
        ⟨update_one_excuted store t.userAddress t.id, [],
         [Event.markExcuted t.userAddress t.id,
          Event.postOrder (if t.side == some buyStr then buyActionStr else sellActionStr)
            [t.id] t],
         none⟩) := by
  constructor
  · intro hc
    simp only [executor_tick, if_true]
    rw [hread]
    simp only [process_fetched_trades, hc, if_true, add_to_aggregation_buffer_empty]
    simp only [get_ready_aggregated_trades, expired_createdBatch_false w now t hw,
      Bool.false_eq_true, if_false, do_aggregated_trading]
    rfl
  · intro hc
    simp only [executor_tick, if_true]
    rw [hread]
    simp only [process_fetched_trades, hc, Bool.false_eq_true, if_false,
      do_trading_mkCollab]
    simp only [get_ready_aggregated_trades, do_aggregated_trading]
    rfl

/-- C2 amended witness: the 0.2-USDC BUY trade is buffered with nothing
marked and nothing posted, while the 0.5-USDC SELL trade (also below the
floor) is dispatched immediately and marked. -/
theorem C2_buy_below_floor_buffers_others_dispatch_witness :
    executor_tick ⟨[addrStr], true, 60⟩ okCollab 0 [tBuy] [] =
      ⟨[tBuy], [(get_aggregation_key tBuy, createdBatch tBuy 0)], [], none⟩ ∧
    executor_tick ⟨[addrStr], true, 60⟩ okCollab 0 [tSell] [] =
      ⟨update_one_excuted [tSell] tSell.userAddress tSell.id, [],
       [Event.markExcuted tSell.userAddress tSell.id,
        Event.postOrder sellActionStr [tSell.id] tSell],
       none⟩ := by
  simp only [okCollab]
  have h1 := C2_buy_below_floor_buffers_others_dispatch [addrStr] 60
    (fun _ => []) (fun _ => 0) 0 [tBuy] tBuy (by omega) (by with_unfolding_all rfl)
  have h2 := C2_buy_below_floor_buffers_others_dispatch [addrStr] 60
    (fun _ => []) (fun _ => 0) 0 [tSell] tSell (by omega) (by with_unfolding_all rfl)
  exact ⟨h1.1 (by with_unfolding_all decide), h2.2 (by with_unfolding_all decide)⟩

theorem find_map_replace (k : String) (v : AggregatedTrade) :
    ∀ buf : Buffer, (buf.any fun kv => kv.1 == k) = true →
      bufferGet (buf.map fun kv => if kv.1 == k then (k, v) else kv) k = some v := by
  intro buf
  induction buf with
  | nil => intro h; simp at h
  | cons kv rest ih =>
    intro h
    by_cases hk : (kv.1 == k) = true
    · simp only [List.map_cons, hk, if_true]
      simp [bufferGet, List.find?_cons_of_pos]
    · simp only [List.map_cons, hk, Bool.false_eq_true, if_false]
      have h' : (rest.any fun kv => kv.1 == k) = true := by
        simp only [List.any_cons, hk, Bool.false_or] at h
        exact h
      have hget := ih h'
      simp only [bufferGet] at hget ⊢
      rw [List.find?_cons_of_neg _ (by simpa using hk)]
      exact hget

theorem find_append_new (k : String) (v : AggregatedTrade) :
    ∀ buf : Buffer, (buf.any fun kv => kv.1 == k) = false →
      bufferGet (buf ++ [(k, v)]) k = some v := by
  intro buf
  induction buf with
  | nil =>
    intro _
    simp [bufferGet, List.find?_cons_of_pos]
  | cons kv rest ih =>
    intro h
    simp only [List.any_cons, Bool.or_eq_false_iff] at h
    have hget := ih h.2
    simp only [bufferGet] at hget ⊢
    rw [List.cons_append, List.find?_cons_of_neg _ (by simpa using h.1)]
    exact hget

theorem bufferGet_bufferSet (buf : Buffer) (k : String) (v : AggregatedTrade) :
    bufferGet (bufferSet buf k v) k = some v := by
  unfold bufferSet
  cases h : buf.any fun kv => kv.1 == k with
  | true =>
    simpa using find_map_replace k v buf h
  | false =>
    simpa using find_append_new k v buf h

/-- C10: adding a trade to the aggregation buffer is total on loosely-shaped
records — an entry for the trade's key always exists afterwards; a missing
side defaults to BUY in the aggregation key; a record missing both size and
price creates a batch with `totalUsdcSize = 0` and `averagePrice = 0`; and
the merge recomputation never divides by zero: whenever the merged
`totalUsdcSize` is not positive, `averagePrice` is set to 0 instead of the
quotient. -/
theorem C10_add_total_on_loose_records :
    (∀ t : Trade, t.side = none →
      get_aggregation_key t = get_aggregation_key { t with side := some buyStr }) ∧
    (∀ (t : Trade) (now : Nat), t.usdcSize = none → t.price = none →
      ((bufferGet (add_to_aggregation_buffer [] t now) (get_aggregation_key t)).map
        fun B => (B.totalUsdcSize, B.averagePrice)) = some (0, 0)) ∧
    (∀ (buf : Buffer) (t : Trade) (now : Nat) (B : AggregatedTrade),
      bufferGet buf (get_aggregation_key t) = some B →
      bufferGet (add_to_aggregation_buffer buf t now) (get_aggregation_key t) =
        some (mergedBatch B t now) ∧
      ((mergedBatch B t now).totalUsdcSize ≤ 0 → (mergedBatch B t now).averagePrice = 0)) ∧
    (∀ (buf : Buffer) (t : Trade) (now : Nat),
      (bufferGet (add_to_aggregation_buffer buf t now) (get_aggregation_key t)).isSome =
        true) := by
  have hmerge : ∀ (buf : Buffer) (t : Trade) (now : Nat) (B : AggregatedTrade),
      bufferGet buf (get_aggregation_key t) = some B →
      bufferGet (add_to_aggregation_buffer buf t now) (get_aggregation_key t) =
        some (mergedBatch B t now) := by
    intro buf t now B hB
    simp only [add_to_aggregation_buffer, hB]
    exact bufferGet_bufferSet buf (get_aggregation_key t) (mergedBatch B t now)
  refine ⟨?_, ?_, ?_, ?_⟩
  · intro t hside
    simp [get_aggregation_key, hside]
  · intro t now husdc hprice
    rw [add_to_aggregation_buffer_empty]
    simp [bufferGet, List.find?_cons_of_pos, createdBatch, husdc, hprice]
  · intro buf t now B hB
    refine ⟨hmerge buf t now B hB, ?_⟩
    intro hle
    simp only [mergedBatch] at hle ⊢
    rw [if_neg (not_lt.mpr hle)]
  · intro buf t now
    cases hB : bufferGet buf (get_aggregation_key t) with
    | some B => rw [hmerge buf t now B hB]; rfl
    | none =>
      simp only [add_to_aggregation_buffer, hB]
      rw [bufferGet_bufferSet]
      rfl

/-- C10 witness: the record with no side, size or price keys gets key suffix
BUY and a zero-total, zero-average batch; merging a second zero-size trade
keeps the total at 0 and the guard sets the average to 0 rather than
dividing. -/
theorem C10_add_total_on_loose_records_witness :
    get_aggregation_key tLoose = get_aggregation_key { tLoose with side := some buyStr } ∧
    ((bufferGet (add_to_aggregation_buffer [] tLoose 0) (get_aggregation_key tLoose)).map
      fun B => (B.totalUsdcSize, B.averagePrice)) = some (0, 0) ∧
    (mergedBatch (createdBatch tZero1 0) tZero2 0).averagePrice = 0 := by
  have h := C10_add_total_on_loose_records
  have hget : bufferGet (add_to_aggregation_buffer [] tZero1 0) (get_aggregation_key tZero2) =
      some (createdBatch tZero1 0) := by
    with_unfolding_all rfl
  exact ⟨h.1 tLoose rfl, h.2.1 tLoose 0 rfl rfl,
    (h.2.2.1 (add_to_aggregation_buffer [] tZero1 0) tZero2 0 (createdBatch tZero1 0) hget).2
      (by with_unfolding_all decide)⟩

end PolyBot
